import Mathlib

/-!
Verification development for the formicarium ant-colony simulation core.

The definitions below are a shallow embedding of the Rust sources:
  - src/entity/phero.rs      (Scent, Concentration, Phero aging)
  - src/entity/ant/memory.rs (LocationAwareness)
  - src/entity/ant/mod.rs    (Activity, ant State, enhance/suppress/assess, react)
  - src/entity/nest.rs       (nest::State::store)
  - src/entity/morsel.rs     (Morsel supply as Lifespan)
  - src/game/conf.rs         (Conf, total_storage)
  - src/game/state.rs        (State::is_simulation_over, State::new)

Machine integers are modeled as Nat / Int with explicit saturation where the
source saturates (u16::saturating_sub, u64::saturating_add).  The semeion
substrate types (Location, Lifespan, Neighborhood) are external collaborators;
they are embedded by their documented behavior: a Location is a coordinate
pair, a Lifespan is its remaining length (a Nat), and a Neighborhood is the
center tile plus the ring of tiles at the sensing radius, where the reacting
entity itself is excluded from the entity listing of the center tile.
-/

namespace Formicarium

/-- Location of a tile: a pair of i32 coordinates (semeion::Location). -/
abbrev Location := Int × Int

/-- The kinds of pheromone scent an Ant can leave (src/entity/phero.rs, enum Scent). -/
inductive Scent where
  | Colony
  | Food
deriving DecidableEq, Repr

/-- The Ant current activity (src/entity/ant/mod.rs, enum Activity). -/
inductive Activity where
  | Foraging
  | Carrying
deriving DecidableEq, Repr

/-- The state of the Ant from the point of view of the neighbor Ants
(src/entity/ant/mod.rs, enum State). -/
inductive AntState where
  | Leader
  | Follower
deriving DecidableEq, Repr

/-- The kinds of all the entities (src/entity/mod.rs, enum Kind). -/
inductive Kind where
  | Grid
  | Phero (scent : Scent)
  | Nest
  | Morsel
  | Ant
deriving DecidableEq, Repr

/-- Kind::scent (src/entity/mod.rs): the phero Scent used to seek the Kind. -/
def Kind.scent : Kind → Option Scent
  | Kind.Nest => some Scent.Colony
  | Kind.Morsel => some Scent.Food
  | _ => none

/-- Activity::scent (src/entity/ant/mod.rs): the scent the Ant leaves on its trail. -/
def Activity.scent : Activity → Scent
  | Activity.Carrying => Scent.Food
  | Activity.Foraging => Scent.Colony

/-- Activity::target_kind (src/entity/ant/mod.rs). -/
def Activity.targetKind : Activity → Kind
  | Activity.Carrying => Kind.Nest
  | Activity.Foraging => Kind.Morsel

/-- Activity::target_scent (src/entity/ant/mod.rs): the scent of the target kind
(the source unwraps the Option with an expect; for both activities it is Some). -/
def Activity.targetScent (a : Activity) : Scent :=
  (a.targetKind.scent).get (by cases a <;> rfl)

/-- Activity::switch (src/entity/ant/mod.rs). -/
def Activity.switch : Activity → Activity
  | Activity.Carrying => Activity.Foraging
  | Activity.Foraging => Activity.Carrying

/- The strength value of a pheromone (src/entity/phero.rs, struct Concentration(u16)).
The u16 payload is modeled as an Int so that the saturation of
u16::saturating_sub at zero is an explicit operation. -/
namespace Concentration

/-- Concentration::decrease_by (src/entity/phero.rs): self.0 = self.0.saturating_sub(value). -/
def decreaseBy (c v : Int) : Int := max (c - v) 0

end Concentration

/-- u64::MAX, the saturation bound of the nest storage counter. -/
def u64Max : Nat := 2 ^ 64 - 1

/-- nest::State::store (src/entity/nest.rs): storage = storage.saturating_add(1). -/
def nestStore (storage : Nat) : Nat := min (storage + 1) u64Max

/-- The configuration parameters of the core read from game::Conf
(src/game/conf.rs).  pheroIncrease models the f64 field phero_increase_ratio
as an exact rational; the bonus computation truncates toward zero exactly as
the source cast to u64 does. -/
structure Conf where
  memorySpan : Nat
  maxPheroConcentration : Int
  pheroDecrease : Int
  pheroIncrease : ℚ
  morselsStorage : Nat
  morselsCount : Nat
deriving DecidableEq, Repr

/-- Conf::total_storage (src/game/conf.rs): morsels.storage * morsels.count. -/
def Conf.totalStorage (c : Conf) : Nat := c.morselsStorage * c.morselsCount

/-- State::is_simulation_over (src/game/state.rs): nest storage equals the
total storage of the configuration. -/
def isSimulationOver (c : Conf) (storage : Nat) : Bool :=
  storage == c.totalStorage

/-- Memory of Locations of fixed maximum space
(src/entity/ant/memory.rs, struct LocationAwareness). -/
structure LocationAwareness where
  capacity : Nat
  next : Nat
  locations : List (Option Location)
deriving DecidableEq, Repr

namespace LocationAwareness

/-- LocationAwareness::new: next = 0, locations = vec![None; capacity]. -/
def new (capacity : Nat) : LocationAwareness :=
  ⟨capacity, 0, List.replicate capacity none⟩

/-- LocationAwareness::insert: writes the slot at index next and advances
next = next.saturating_add(1).rem_euclid(capacity); a no-op when capacity is 0. -/
def insert (m : LocationAwareness) (l : Location) : LocationAwareness :=
  if 0 < m.capacity then
    { m with locations := m.locations.set m.next (some l),
             next := (m.next + 1) % m.capacity }
  else m

/-- LocationAwareness::contains: self.locations.contains(&Some(location)). -/
def contains (m : LocationAwareness) (l : Location) : Bool :=
  decide (some l ∈ m.locations)

/-- LocationAwareness::clear: locations = vec![None; capacity] (next is kept). -/
def clear (m : LocationAwareness) : LocationAwareness :=
  { m with locations := List.replicate m.capacity none }

/-- Folding insert over a list of locations, oldest first. -/
def insertAll (m : LocationAwareness) (ls : List Location) : LocationAwareness :=
  ls.foldl insert m

end LocationAwareness

/-- A trail marker entity on a tile: its scent tag together with the remaining
length of its Lifespan (the strength).  src/entity/phero.rs, struct Phero. -/
abbrev Marker := Scent × Nat

/-- First marker of the given scent in the entity listing of a tile, returning
the length of its lifespan: models
entities().find(kind == Phero{scent}) followed by lifespan().length(). -/
def findPheroStrength (s : Scent) : List Marker → Option Nat
  | [] => none
  | m :: rest => if m.1 = s then some m.2 else findPheroStrength s rest

/-- Lengthen the lifespan of the first marker of the given scent by inc:
models lifespan.lengthen_by(increase) on the entity found by find. -/
def lengthenFirst (s : Scent) (inc : Nat) : List Marker → List Marker
  | [] => []
  | m :: rest => if m.1 = s then (m.1, m.2 + inc) :: rest else m :: lengthenFirst s inc rest

/-- Clear the lifespan of the first marker of the given scent:
models lifespan.clear() on the entity found by find. -/
def clearFirst (s : Scent) : List Marker → List Marker
  | [] => []
  | m :: rest => if m.1 = s then (m.1, 0) :: rest else m :: clearFirst s rest

/-- Phero::react ages every marker by one unit of lifespan per generation and
the substrate removes the ones whose lifespan is exhausted
(src/entity/phero.rs, lifespan.shorten()). -/
def agePheros (ms : List Marker) : List Marker :=
  ms.filterMap (fun m => if m.2 - 1 = 0 then none else some (m.1, m.2 - 1))

/-- Bonus added when reinforcing a Colony marker
(src/entity/ant/mod.rs, enhance_trail_pheromone):
(length as f64 * phero_increase_ratio) as u64, i.e. the product truncated
toward zero (the f64 product is modeled as the exact rational product). -/
def colonyBonus (c : Conf) (length : Nat) : Nat :=
  (((length : ℚ) * c.pheroIncrease).floor).toNat

/-- The mutable fields of an Ant that the per-tick decision cycle touches
(src/entity/ant/mod.rs, struct Ant).  The field state is the ephemeral
Leader/Follower role. -/
structure Ant where
  location : Location
  activity : Activity
  state : AntState
  pheroConcentration : Int
  memory : LocationAwareness
deriving DecidableEq, Repr

/-- Result of Ant::enhance_trail_pheromone: the updated ant, the updated
markers of the center tile, and the offspring marker (at most one). -/
structure EnhanceOut where
  ant : Ant
  pheros : List Marker
  offspring : Option Marker
deriving DecidableEq, Repr

/-- Ant::enhance_trail_pheromone (src/entity/ant/mod.rs).
pheros is the marker listing of the center tile and others the states of the
other Ants located on the center tile (the reacting ant is mutably borrowed
and therefore not part of its own neighborhood view).  The source first
decreases the concentration, then either lengthens an existing marker of the
activity scent, or (when the post-decrease concentration is positive) resolves
leadership: is_in_community is others nonempty, is_under_leader is a Leader
among the others; the ant promotes itself to Leader when in community with no
leader, and deposits exactly when its (possibly promoted) state is Leader or
it is not in community — written out branch by branch below. -/
def enhanceTrailPheromone (c : Conf) (a : Ant) (pheros : List Marker)
    (others : List AntState) : EnhanceOut :=
  match findPheroStrength a.activity.scent pheros with
  | some length =>
      ⟨{ a with pheroConcentration :=
            Concentration.decreaseBy a.pheroConcentration c.pheroDecrease },
        lengthenFirst a.activity.scent
          ((Concentration.decreaseBy a.pheroConcentration c.pheroDecrease).toNat +
            (if a.activity.scent = Scent.Colony then colonyBonus c length else 0)) pheros,
        none⟩
  | none =>
      if 0 < Concentration.decreaseBy a.pheroConcentration c.pheroDecrease then
        if others ≠ [] ∧ ¬ AntState.Leader ∈ others then
          ⟨{ a with state := AntState.Leader, pheroConcentration :=
                Concentration.decreaseBy a.pheroConcentration c.pheroDecrease },
            pheros,
            some (a.activity.scent,
              (Concentration.decreaseBy a.pheroConcentration c.pheroDecrease).toNat)⟩
        else if a.state = AntState.Leader ∨ others = [] then
          ⟨{ a with pheroConcentration :=
                Concentration.decreaseBy a.pheroConcentration c.pheroDecrease },
            pheros,
            some (a.activity.scent,
              (Concentration.decreaseBy a.pheroConcentration c.pheroDecrease).toNat)⟩
        else
          ⟨{ a with pheroConcentration :=
                Concentration.decreaseBy a.pheroConcentration c.pheroDecrease },
            pheros, none⟩
      else
        ⟨{ a with pheroConcentration :=
              Concentration.decreaseBy a.pheroConcentration c.pheroDecrease },
          pheros, none⟩

/-- A tile as seen by suppress_trail_pheromone: its markers in entity order and
whether a Nest or a Morsel entity occupies it. -/
structure Tile where
  pheros : List Marker
  hasNest : Bool
  hasMorsel : Bool
deriving DecidableEq, Repr

/-- Whether the tile holds an entity of the given kind (only the kinds that
suppress_trail_pheromone queries, Nest and Morsel, are relevant; Ant and Grid
presence is not tracked by this view). -/
def Tile.containsKind (t : Tile) : Kind → Bool
  | Kind.Nest => t.hasNest
  | Kind.Morsel => t.hasMorsel
  | Kind.Phero s => t.pheros.any (fun m => decide (m.1 = s))
  | _ => false

/-- The neighborhood handed to the ant: its own (center) tile plus the ring of
tiles at the sensing radius (semeion Neighborhood / immediate_border). -/
structure Neighborhood where
  center : Tile
  ring : List Tile
deriving DecidableEq, Repr

/-- neighborhood.contains_kind: an entity of the kind anywhere in the
neighborhood (center or ring). -/
def Neighborhood.containsKind (nb : Neighborhood) (k : Kind) : Bool :=
  nb.center.containsKind k || nb.ring.any (fun t => t.containsKind k)

/-- Greatest strength of a marker of the given scent among the ring tiles,
0 if there is none: models
border.iter().map(entities of that phero kind).flatten()
  .filter_map(lifespan length).max().unwrap_or(0). -/
def ringMaxStrength (s : Scent) (ring : List Tile) : Nat :=
  ((ring.map (fun t => t.pheros.filter (fun m => decide (m.1 = s)))).flatten.map
    (fun m => m.2)).foldl Nat.max 0

/-- Ant::suppress_trail_pheromone (src/entity/ant/mod.rs); returns the new
marker listing of the center tile. -/
def suppressTrailPheromone (a : Ant) (nb : Neighborhood) : List Marker :=
  if nb.containsKind a.activity.targetKind then nb.center.pheros
  else
    let ts := a.activity.targetScent
    let neighborStrength := ringMaxStrength ts nb.ring
    match findPheroStrength ts nb.center.pheros with
    | none => nb.center.pheros
    | some strength =>
        if neighborStrength < strength then clearFirst ts nb.center.pheros
        else nb.center.pheros

/-- Result of Ant::assess_location_for_targets: the updated ant, the nest
storage and the supply of the first Morsel on the center tile (if any). -/
structure AssessOut where
  ant : Ant
  storage : Nat
  morsel : Option Nat
deriving DecidableEq, Repr

/-- The Nest iteration of the target loop in Ant::assess_location_for_targets
(src/entity/ant/mod.rs): runs only when a Nest entity overlaps the ant. -/
def assessNest (c : Conf) (hasNest : Bool) (st : AssessOut) : AssessOut :=
  if hasNest then
    let st1 := if st.ant.activity = Activity.Carrying
      then { st with storage := nestStore st.storage } else st
    let st2 := if st1.ant.activity.targetKind = Kind.Nest
      then { st1 with ant := { st1.ant with
                activity := st1.ant.activity.switch,
                memory := st1.ant.memory.clear } }
      else st1
    { st2 with ant := { st2.ant with pheroConcentration := c.maxPheroConcentration } }
  else st

/-- The Morsel iteration of the target loop in Ant::assess_location_for_targets:
runs only when a Morsel entity overlaps the ant; the supply is the length of
the morsel Lifespan, the pickup fires only while is_alive() holds. -/
def assessMorsel (c : Conf) (st : AssessOut) : AssessOut :=
  match st.morsel with
  | none => st
  | some supply =>
      let st1 := if st.ant.activity.targetKind = Kind.Morsel then
          if 0 < supply then
            { st with morsel := some (supply - 1),
                      ant := { st.ant with
                        activity := st.ant.activity.switch,
                        memory := st.ant.memory.clear } }
          else st
        else st
      { st1 with ant := { st1.ant with pheroConcentration := c.maxPheroConcentration } }

/-- Ant::assess_location_for_targets (src/entity/ant/mod.rs): the loop over
the possible targets, Nest first, then Morsel. -/
def assessLocationForTargets (c : Conf) (hasNest : Bool) (morsel0 : Option Nat)
    (storage : Nat) (a : Ant) : AssessOut :=
  assessMorsel c (assessNest c hasNest ⟨a, storage, morsel0⟩)

/-- Result of running one tick of the co-located ants of a single tile:
their updated states, the updated markers, and the staged offspring markers. -/
structure TickOut where
  ants : List Ant
  pheros : List Marker
  deposits : List Marker
deriving DecidableEq, Repr

/-- One tick of enhance_trail_pheromone over the ants sharing a single tile,
processed in the stable substrate order.  Each ant is first reset to Follower
(Ant::react) and then reacts with the listing of every other co-located ant
(with the live leadership states, as in the source where the ant states are
mutated in place during the generation); its offspring is staged for the
commit at the tick boundary. -/
def runTickGo (c : Conf) : List Ant → List Ant → List Marker → List Marker → TickOut
  | [], processed, pheros, deposits => ⟨processed, pheros, deposits⟩
  | a :: rest, processed, pheros, deposits =>
      let a0 := { a with state := AntState.Follower }
      let others := (processed ++ rest).map Ant.state
      let out := enhanceTrailPheromone c a0 pheros others
      runTickGo c rest (processed ++ [out.ant]) out.pheros (deposits ++ out.offspring.toList)

/-- One tick over the ants of a single tile starting from its committed markers. -/
def runTick (c : Conf) (ants : List Ant) (pheros : List Marker) : TickOut :=
  runTickGo c ants [] pheros []

/-- The committed marker listing of the tile at the tick boundary: the
surviving aged markers plus the staged offspring inserted by the substrate. -/
def committedMarkers (t : TickOut) : List Marker :=
  agePheros t.pheros ++ t.deposits

/-- Number of markers of the given scent on a tile. -/
def countScent (s : Scent) (ms : List Marker) : Nat :=
  ms.countP (fun m => decide (m.1 = s))

/-- At most one marker per scent tag on the tile. -/
def UniquePerScent (ms : List Marker) : Prop :=
  ∀ s, countScent s ms ≤ 1

/-- Supply of the first Morsel at the given location
(get_overlapping_kind_mut specialised to the world model). -/
def morselAt (loc : Location) : List (Location × Nat) → Option Nat
  | [] => none
  | m :: rest => if m.1 = loc then some m.2 else morselAt loc rest

/-- Write back the supply of the first Morsel at the given location. -/
def setFirstMorsel (loc : Location) (v : Nat) : List (Location × Nat) → List (Location × Nat)
  | [] => []
  | m :: rest => if m.1 = loc then (m.1, v) :: rest else m :: setFirstMorsel loc v rest

/-- The world state relevant to the food conservation argument: the nest
location and storage, the morsels with their remaining supplies, and the ants
(trail markers never interact with these counters: enhance and suppress only
read and write Phero strengths and ant-local fields). -/
structure World where
  nestLocation : Location
  storage : Nat
  morsels : List (Location × Nat)
  ants : List Ant
deriving DecidableEq, Repr

/-- One Ant::react step restricted to the fields the conservation argument
tracks: reset to Follower, record the location into memory, assess the targets
of the center tile, apply the concentration decrease of the enhance step, and
move.  The destination mv is universally quantified over by the theorems, so
any movement policy (including the randomized one of the source) is covered. -/
def antReactW (c : Conf) (nestLoc : Location) (storage : Nat)
    (morsels : List (Location × Nat)) (a : Ant) (mv : Location) :
    Nat × List (Location × Nat) × Ant :=
  let a0 := { a with state := AntState.Follower, memory := a.memory.insert a.location }
  let hasNest := a.location = nestLoc
  let out := assessLocationForTargets c (decide hasNest) (morselAt a.location morsels) storage a0
  let morsels' := match out.morsel with
    | some v => setFirstMorsel a.location v morsels
    | none => morsels
  let a1 := { out.ant with pheroConcentration :=
      Concentration.decreaseBy out.ant.pheroConcentration c.pheroDecrease }
  (out.storage, morsels', { a1 with location := mv })

/-- All the ants react once, in the stable substrate order; the list mvs
supplies each ant with its destination for this tick. -/
def tickGo (c : Conf) (nestLoc : Location) :
    List Ant → List Location → Nat → List (Location × Nat) →
    Nat × List (Location × Nat) × List Ant
  | [], _, storage, morsels => (storage, morsels, [])
  | a :: as, mvs, storage, morsels =>
      let r := antReactW c nestLoc storage morsels a (mvs.headD a.location)
      let rec' := tickGo c nestLoc as mvs.tail r.1 r.2.1
      (rec'.1, rec'.2.1, r.2.2 :: rec'.2.2)

/-- One committed generation of the world. -/
def tickW (c : Conf) (w : World) (mvs : List Location) : World :=
  let r := tickGo c w.nestLocation w.ants mvs w.storage w.morsels
  { w with storage := r.1, morsels := r.2.1, ants := r.2.2 }

/-- A whole run: one tick per element of the plan. -/
def runW (c : Conf) (w : World) (plan : List (List Location)) : World :=
  plan.foldl (fun w mvs => tickW c w mvs) w

/-- Number of Carrying ants. -/
def carryCount (as : List Ant) : Nat :=
  as.countP (fun a => decide (a.activity = Activity.Carrying))

/-- Total remaining supply over all morsels. -/
def supplySum (ms : List (Location × Nat)) : Nat :=
  (ms.map (fun m => m.2)).sum

end Formicarium

/-! ### Helper lemmas -/

namespace Formicarium

lemma insertAll_nil (m : LocationAwareness) : m.insertAll [] = m := rfl

lemma insertAll_cons (m : LocationAwareness) (y : Location) (ys : List Location) :
    m.insertAll (y :: ys) = (m.insert y).insertAll ys := rfl

lemma set_append_length {α : Type} (a b : List α) (v : α) :
    (a ++ b).set a.length v = a ++ b.set 0 v := by
  induction a with
  | nil => rfl
  | cons x xs ih => simp only [List.cons_append, List.length_cons, List.set_cons_succ, ih]

lemma insertAll_fill (K : Nat) (hK : 0 < K) :
    ∀ (ys zs : List Location), zs.length + ys.length ≤ K →
    LocationAwareness.insertAll
      ⟨K, zs.length % K, zs.map some ++ List.replicate (K - zs.length) none⟩ ys
    = ⟨K, (zs.length + ys.length) % K,
        (zs ++ ys).map some ++ List.replicate (K - (zs.length + ys.length)) none⟩ := by
  intro ys
  induction ys with
  | nil => intro zs h; simp [insertAll_nil]
  | cons y ys ih =>
      intro zs h
      have hz : zs.length < K := by
        simp only [List.length_cons] at h
        omega
      have hmod : zs.length % K = zs.length := Nat.mod_eq_of_lt hz
      have hrep : K - zs.length = (K - (zs.length + 1)) + 1 := by omega
      rw [insertAll_cons]
      have hins :
          LocationAwareness.insert
            ⟨K, zs.length % K, zs.map some ++ List.replicate (K - zs.length) none⟩ y
          = ⟨K, (zs.length + 1) % K,
              (zs ++ [y]).map some ++ List.replicate (K - (zs.length + 1)) none⟩ := by
        simp only [LocationAwareness.insert]
        rw [if_pos hK]
        rw [hmod]
        simp only [LocationAwareness.mk.injEq, true_and]
        rw [show zs.length = (zs.map some).length by simp, set_append_length]
        simp only [List.length_map]
        rw [hrep, List.replicate_succ, List.set_cons_zero]
        simp
      rw [hins]
      have hlen2 : (zs ++ [y]).length = zs.length + 1 := by simp
      have h2 : (zs ++ [y]).length + ys.length ≤ K := by
        simp only [List.length_cons] at h
        omega
      have hih := ih (zs ++ [y]) h2
      rw [hlen2] at hih
      rw [hih]
      have harith : zs.length + 1 + ys.length = zs.length + (ys.length + 1) := by omega
      rw [harith, List.append_assoc, List.singleton_append]
      simp

lemma findPheroStrength_lengthenFirst (s : Scent) (inc : Nat) (ms : List Marker) :
    findPheroStrength s (lengthenFirst s inc ms) = (findPheroStrength s ms).map (· + inc) := by
  induction ms with
  | nil => simp [findPheroStrength, lengthenFirst]
  | cons m rest ih =>
      by_cases h : m.1 = s <;> simp [findPheroStrength, lengthenFirst, h, ih]

lemma findPheroStrength_clearFirst (s : Scent) (ms : List Marker) :
    findPheroStrength s (clearFirst s ms) = (findPheroStrength s ms).map (fun _ => 0) := by
  induction ms with
  | nil => simp [findPheroStrength, clearFirst]
  | cons m rest ih =>
      by_cases h : m.1 = s <;> simp [findPheroStrength, clearFirst, h, ih]

end Formicarium

/-! ### Claims -/

namespace Formicarium

/-- Claim C9: for every starting concentration value, every decrement and every
number of repeated calls, the concentration budget never goes below zero (the
subtraction saturates at zero); in particular a budget of 10 decreased by 15
yields exactly 0. -/
theorem concentration_saturation_c9 :
    (∀ (c d : Int) (n : Nat),
      0 ≤ (fun x => Concentration.decreaseBy x d)^[n] (Concentration.decreaseBy c d)) ∧
    Concentration.decreaseBy 10 15 = 0 := by
  constructor
  · intro c d n
    induction n generalizing c with
    | zero => exact le_max_right _ _
    | succ k ih =>
        rw [Function.iterate_succ_apply]
        exact ih (Concentration.decreaseBy c d)
  · decide

/-- Claim C5: with T the total initial supply across all food sources
(per-source initial supply times number of sources, Conf::total_storage), the
simulation-over predicate is false for every nest-storage value strictly less
than T and true exactly when nest storage equals T. -/
theorem simulation_over_c5 (c : Conf) (storage : Nat) :
    (storage < c.totalStorage → isSimulationOver c storage = false) ∧
    (isSimulationOver c storage = true ↔ storage = c.totalStorage) := by
  constructor
  · intro h
    simp only [isSimulationOver, beq_eq_false_iff_ne, ne_eq]
    omega
  · simp [isSimulationOver]

theorem simulation_over_c5_witness :
    isSimulationOver ⟨3, 200, 2, 0, 5, 1⟩ 3 = false ∧
    (isSimulationOver ⟨3, 200, 2, 0, 5, 1⟩ 5 = true ↔ 5 = Conf.totalStorage ⟨3, 200, 2, 0, 5, 1⟩) :=
  ⟨(simulation_over_c5 ⟨3, 200, 2, 0, 5, 1⟩ 3).1 (by decide),
   (simulation_over_c5 ⟨3, 200, 2, 0, 5, 1⟩ 5).2⟩

end Formicarium

namespace Formicarium

lemma insertAll_append (m : LocationAwareness) (l1 l2 : List Location) :
    m.insertAll (l1 ++ l2) = (m.insertAll l1).insertAll l2 :=
  List.foldl_append _ _ _ _

lemma clear_clear (m : LocationAwareness) : m.clear.clear = m.clear := rfl

/-- Claim C8: for a memory of capacity K at least 1, inserting K+1 distinct
locations in sequence leaves contains true for exactly the last K inserted
locations and false for the first (fixed-size circular buffer eviction). -/
theorem memory_eviction_c8 (K : Nat) (hK : 1 ≤ K) (x : Location) (xs : List Location)
    (hlen : xs.length = K) (hnd : (x :: xs).Nodup) :
    (LocationAwareness.insertAll (LocationAwareness.new K) (x :: xs)).contains x = false ∧
    ∀ y ∈ xs,
      (LocationAwareness.insertAll (LocationAwareness.new K) (x :: xs)).contains y = true := by
  have hK0 : 0 < K := hK
  have hxs : xs ≠ [] := by
    intro hnil
    rw [hnil] at hlen
    simp at hlen
    omega
  have hsplit : xs.dropLast ++ [xs.getLast hxs] = xs := List.dropLast_append_getLast hxs
  have hdec : x :: xs = (x :: xs.dropLast) ++ [xs.getLast hxs] := by
    rw [List.cons_append, hsplit]
  have hdl : xs.dropLast.length = K - 1 := by
    rw [List.length_dropLast, hlen]
  have hlen1 : (x :: xs.dropLast).length = K := by
    simp only [List.length_cons, hdl]
    omega
  have h0 := insertAll_fill K hK0 (x :: xs.dropLast) [] (by simp [hlen1])
  simp only [List.length_nil, List.map_nil, List.nil_append, Nat.zero_add, Nat.zero_mod,
    hlen1, Nat.mod_self, Nat.sub_self, Nat.sub_zero, List.replicate_zero,
    List.append_nil] at h0
  have hnew : LocationAwareness.new K = ⟨K, 0, List.replicate K none⟩ := rfl
  have hfin : LocationAwareness.insert ⟨K, 0, (x :: xs.dropLast).map some⟩ (xs.getLast hxs)
      = ⟨K, 1 % K, some (xs.getLast hxs) :: xs.dropLast.map some⟩ := by
    simp only [LocationAwareness.insert]
    rw [if_pos hK0]
    simp [List.set_cons_zero]
  rw [hdec, insertAll_append, hnew, h0, insertAll_cons, insertAll_nil, hfin]
  constructor
  · simp only [LocationAwareness.contains, decide_eq_false_iff_not]
    intro hmem
    have hxnot : x ∉ xs := (List.nodup_cons.mp hnd).1
    rcases List.mem_cons.mp hmem with h1 | h2
    · have hx : x = xs.getLast hxs := by
        simpa using h1
      exact hxnot (hx ▸ List.getLast_mem hxs)
    · rcases List.mem_map.mp h2 with ⟨z, hz, hzz⟩
      have : z = x := by simpa using hzz
      exact hxnot (this ▸ List.dropLast_subset xs hz)
  · intro y hy
    simp only [LocationAwareness.contains, decide_eq_true_eq]
    have : y ∈ xs.dropLast ++ [xs.getLast hxs] := by rw [hsplit]; exact hy
    rcases List.mem_append.mp this with h1 | h2
    · exact List.mem_cons_of_mem _ (List.mem_map_of_mem some h1)
    · have : y = xs.getLast hxs := by simpa using h2
      rw [this]
      exact List.mem_cons_self _ _

theorem memory_eviction_c8_witness :
    (LocationAwareness.insertAll (LocationAwareness.new 3)
      (((0 : Int), (0 : Int)) :: [((1 : Int), (0 : Int)), (2, 0), (3, 0)])).contains (0, 0) = false ∧
    ∀ y ∈ [((1 : Int), (0 : Int)), (2, 0), (3, 0)],
      (LocationAwareness.insertAll (LocationAwareness.new 3)
        (((0 : Int), (0 : Int)) :: [((1 : Int), (0 : Int)), (2, 0), (3, 0)])).contains y = true :=
  memory_eviction_c8 3 (by decide) ((0 : Int), (0 : Int))
    [((1 : Int), (0 : Int)), (2, 0), (3, 0)] (by decide) (by decide)

/-- Claim C2: a Foraging agent whose target assessment runs on a tile holding a
morsel picks up exactly one unit when the supply is nonzero (supply decreases
by one, activity toggles to Carrying, memory is cleared); a zero supply honors
no pickup (supply, activity and memory unchanged); in either case the
concentration budget is reset to the configured maximum. -/
theorem activity_toggling_c2 (c : Conf) (a : Ant) (hasNest : Bool)
    (storage supply : Nat) (hact : a.activity = Activity.Foraging) :
    (0 < supply →
      (assessLocationForTargets c hasNest (some supply) storage a).morsel = some (supply - 1) ∧
      (assessLocationForTargets c hasNest (some supply) storage a).ant.activity
        = Activity.Carrying ∧
      (assessLocationForTargets c hasNest (some supply) storage a).ant.memory
        = a.memory.clear) ∧
    (supply = 0 →
      (assessLocationForTargets c hasNest (some supply) storage a).morsel = some supply ∧
      (assessLocationForTargets c hasNest (some supply) storage a).ant.activity
        = Activity.Foraging ∧
      (assessLocationForTargets c hasNest (some supply) storage a).ant.memory = a.memory) ∧
    (assessLocationForTargets c hasNest (some supply) storage a).ant.pheroConcentration
      = c.maxPheroConcentration := by
  obtain ⟨loc, act, st, conc, mem⟩ := a
  simp only at hact
  subst hact
  have hnest :
      assessNest c hasNest ⟨⟨loc, Activity.Foraging, st, conc, mem⟩, storage, some supply⟩
      = ⟨⟨loc, Activity.Foraging, st,
            (if hasNest then c.maxPheroConcentration else conc), mem⟩,
          storage, some supply⟩ := by
    cases hasNest <;> simp [assessNest, Activity.targetKind]
  have hpos : 0 < supply →
      assessLocationForTargets c hasNest (some supply) storage
        ⟨loc, Activity.Foraging, st, conc, mem⟩
      = ⟨⟨loc, Activity.Carrying, st, c.maxPheroConcentration, mem.clear⟩,
          storage, some (supply - 1)⟩ := by
    intro hs
    rw [assessLocationForTargets, hnest]
    simp [assessMorsel, Activity.targetKind, Activity.switch, hs]
  have hzero : supply = 0 →
      assessLocationForTargets c hasNest (some supply) storage
        ⟨loc, Activity.Foraging, st, conc, mem⟩
      = ⟨⟨loc, Activity.Foraging, st, c.maxPheroConcentration, mem⟩,
          storage, some supply⟩ := by
    intro hs
    have hns : ¬ (0 < supply) := by omega
    rw [assessLocationForTargets, hnest]
    simp [assessMorsel, Activity.targetKind, hns]
  rcases Nat.eq_zero_or_pos supply with hs | hs
  · rw [hzero hs]
    exact ⟨fun h => absurd h (by omega), fun _ => ⟨rfl, rfl, rfl⟩, rfl⟩
  · rw [hpos hs]
    exact ⟨fun _ => ⟨rfl, rfl, rfl⟩, fun h => absurd h (by omega), rfl⟩

theorem activity_toggling_c2_witness :
    ((assessLocationForTargets ⟨3, 200, 2, 0, 30, 20⟩ false (some 5) 0
        ⟨((0 : Int), (0 : Int)), Activity.Foraging, AntState.Follower, 50,
          LocationAwareness.new 2⟩).morsel = some 4 ∧
      (assessLocationForTargets ⟨3, 200, 2, 0, 30, 20⟩ false (some 5) 0
        ⟨((0 : Int), (0 : Int)), Activity.Foraging, AntState.Follower, 50,
          LocationAwareness.new 2⟩).ant.activity = Activity.Carrying ∧
      (assessLocationForTargets ⟨3, 200, 2, 0, 30, 20⟩ false (some 5) 0
        ⟨((0 : Int), (0 : Int)), Activity.Foraging, AntState.Follower, 50,
          LocationAwareness.new 2⟩).ant.memory = (LocationAwareness.new 2).clear) ∧
    (assessLocationForTargets ⟨3, 200, 2, 0, 30, 20⟩ false (some 5) 0
        ⟨((0 : Int), (0 : Int)), Activity.Foraging, AntState.Follower, 50,
          LocationAwareness.new 2⟩).ant.pheroConcentration = 200 := by
  have h := activity_toggling_c2 ⟨3, 200, 2, 0, 30, 20⟩
    ⟨((0 : Int), (0 : Int)), Activity.Foraging, AntState.Follower, 50,
      LocationAwareness.new 2⟩ false 0 5 rfl
  exact ⟨h.1 (by decide), h.2.2⟩

/-- Claim C3 counterexample: a Carrying agent assessed on a tile that holds the
nest and also a morsel with nonzero supply delivers its food (storage becomes
1) but does not end the assessment Foraging: the Morsel iteration of the loop
runs after the Nest one, picks the food up again, and leaves the agent
Carrying — contradicting the claim that the activity toggles to Foraging. -/
theorem nest_delivery_c3_counterexample :
    (assessLocationForTargets ⟨3, 200, 2, 0, 30, 20⟩ true (some 1) 0
        ⟨((0 : Int), (0 : Int)), Activity.Carrying, AntState.Follower, 50,
          LocationAwareness.new 2⟩).ant.activity ≠ Activity.Foraging ∧
    (assessLocationForTargets ⟨3, 200, 2, 0, 30, 20⟩ true (some 1) 0
        ⟨((0 : Int), (0 : Int)), Activity.Carrying, AntState.Follower, 50,
          LocationAwareness.new 2⟩).storage = 1 := by
  decide

/-- Claim C3 (amended): when a Carrying agent's target assessment runs on a
tile containing the nest, the nest storage counter increases by exactly one
(below the u64 saturation bound), the memory is cleared and the concentration
budget is reset to the configured maximum, with no supply check; the activity
ends the assessment Foraging unless the tile also holds a morsel with nonzero
supply, in which case the agent immediately picks up again and ends Carrying. -/
theorem nest_delivery_c3 (c : Conf) (a : Ant) (storage : Nat) (morsel0 : Option Nat)
    (hact : a.activity = Activity.Carrying) (hs : storage < u64Max) :
    (assessLocationForTargets c true morsel0 storage a).storage = storage + 1 ∧
    (assessLocationForTargets c true morsel0 storage a).ant.memory = a.memory.clear ∧
    (assessLocationForTargets c true morsel0 storage a).ant.pheroConcentration
      = c.maxPheroConcentration ∧
    (assessLocationForTargets c true morsel0 storage a).ant.activity =
      (match morsel0 with
       | some s => if 0 < s then Activity.Carrying else Activity.Foraging
       | none => Activity.Foraging) := by
  obtain ⟨loc, act, st, conc, mem⟩ := a
  simp only at hact
  subst hact
  have hstore : nestStore storage = storage + 1 := by
    simp only [nestStore]
    omega
  cases morsel0 with
  | none =>
      simp [assessLocationForTargets, assessNest, assessMorsel, Activity.targetKind,
        Activity.switch, hstore]
  | some s =>
      rcases Nat.eq_zero_or_pos s with h0 | h0 <;>
        simp [assessLocationForTargets, assessNest, assessMorsel, Activity.targetKind,
          Activity.switch, hstore, h0, clear_clear]

theorem nest_delivery_c3_witness :
    (assessLocationForTargets ⟨3, 200, 2, 0, 30, 20⟩ true none 7
        ⟨((0 : Int), (0 : Int)), Activity.Carrying, AntState.Follower, 50,
          LocationAwareness.new 2⟩).storage = 8 ∧
    (assessLocationForTargets ⟨3, 200, 2, 0, 30, 20⟩ true none 7
        ⟨((0 : Int), (0 : Int)), Activity.Carrying, AntState.Follower, 50,
          LocationAwareness.new 2⟩).ant.memory = (LocationAwareness.new 2).clear ∧
    (assessLocationForTargets ⟨3, 200, 2, 0, 30, 20⟩ true none 7
        ⟨((0 : Int), (0 : Int)), Activity.Carrying, AntState.Follower, 50,
          LocationAwareness.new 2⟩).ant.pheroConcentration = 200 ∧
    (assessLocationForTargets ⟨3, 200, 2, 0, 30, 20⟩ true none 7
        ⟨((0 : Int), (0 : Int)), Activity.Carrying, AntState.Follower, 50,
          LocationAwareness.new 2⟩).ant.activity = Activity.Foraging :=
  nest_delivery_c3 ⟨3, 200, 2, 0, 30, 20⟩
    ⟨((0 : Int), (0 : Int)), Activity.Carrying, AntState.Follower, 50,
      LocationAwareness.new 2⟩ 7 none rfl (by decide)

end Formicarium

namespace Formicarium

/-- Claim C6: during trail reinforcement the concentration budget is first
decreased by the configured per-tick amount with a floor at zero; if the
center tile already holds a marker of the scent of the current activity, that
marker's strength grows by the post-decrease concentration value plus, for the
colony-bound scent, the existing strength times the configured reinforcement
factor (truncated), and no new marker entity is emitted. -/
theorem trail_reinforcement_c6 (c : Conf) (a : Ant) (pheros : List Marker)
    (others : List AntState) (s0 : Nat)
    (hfind : findPheroStrength a.activity.scent pheros = some s0) :
    (enhanceTrailPheromone c a pheros others).ant.pheroConcentration
        = max (a.pheroConcentration - c.pheroDecrease) 0 ∧
    (enhanceTrailPheromone c a pheros others).offspring = none ∧
    findPheroStrength a.activity.scent (enhanceTrailPheromone c a pheros others).pheros
      = some (s0 +
          ((max (a.pheroConcentration - c.pheroDecrease) 0).toNat +
            (if a.activity.scent = Scent.Colony then colonyBonus c s0 else 0))) := by
  have hstep : enhanceTrailPheromone c a pheros others =
      ⟨{ a with pheroConcentration :=
            Concentration.decreaseBy a.pheroConcentration c.pheroDecrease },
        lengthenFirst a.activity.scent
          ((Concentration.decreaseBy a.pheroConcentration c.pheroDecrease).toNat +
            (if a.activity.scent = Scent.Colony then colonyBonus c s0 else 0)) pheros,
        none⟩ := by
    unfold enhanceTrailPheromone
    rw [hfind]
  rw [hstep]
  refine ⟨rfl, rfl, ?_⟩
  rw [findPheroStrength_lengthenFirst, hfind]
  simp [Concentration.decreaseBy]

theorem trail_reinforcement_c6_witness :
    findPheroStrength
      (Ant.activity ⟨((0 : Int), (0 : Int)), Activity.Foraging, AntState.Follower, 50,
        LocationAwareness.new 2⟩).scent [(Scent.Food, 7), (Scent.Colony, 100)] = some 100 ∧
    ((enhanceTrailPheromone ⟨3, 200, 2, 1 / 10, 30, 20⟩
        ⟨((0 : Int), (0 : Int)), Activity.Foraging, AntState.Follower, 50,
          LocationAwareness.new 2⟩ [(Scent.Food, 7), (Scent.Colony, 100)] []).ant.pheroConcentration
        = max ((50 : Int) - 2) 0 ∧
      (enhanceTrailPheromone ⟨3, 200, 2, 1 / 10, 30, 20⟩
        ⟨((0 : Int), (0 : Int)), Activity.Foraging, AntState.Follower, 50,
          LocationAwareness.new 2⟩ [(Scent.Food, 7), (Scent.Colony, 100)] []).offspring = none ∧
      findPheroStrength
        (Ant.activity ⟨((0 : Int), (0 : Int)), Activity.Foraging, AntState.Follower, 50,
          LocationAwareness.new 2⟩).scent
        (enhanceTrailPheromone ⟨3, 200, 2, 1 / 10, 30, 20⟩
          ⟨((0 : Int), (0 : Int)), Activity.Foraging, AntState.Follower, 50,
            LocationAwareness.new 2⟩ [(Scent.Food, 7), (Scent.Colony, 100)] []).pheros
        = some (100 +
            ((max ((50 : Int) - 2) 0).toNat +
              (if (Ant.activity ⟨((0 : Int), (0 : Int)), Activity.Foraging, AntState.Follower, 50,
                    LocationAwareness.new 2⟩).scent = Scent.Colony
               then colonyBonus ⟨3, 200, 2, 1 / 10, 30, 20⟩ 100 else 0)))) :=
  ⟨by decide,
   trail_reinforcement_c6 ⟨3, 200, 2, 1 / 10, 30, 20⟩
     ⟨((0 : Int), (0 : Int)), Activity.Foraging, AntState.Follower, 50,
       LocationAwareness.new 2⟩ [(Scent.Food, 7), (Scent.Colony, 100)] [] 100 (by decide)⟩

/-- Claim C7: during trail suppression nothing changes when an entity of the
activity's target kind is anywhere in the sensed neighborhood; otherwise, a
center marker of the target-bound scent is cleared exactly when its strength
strictly exceeds the best same-scent strength among the ring tiles (0 when the
ring has none), and is left unchanged when it is equal or less. -/
theorem trail_suppression_c7 (a : Ant) (nb : Neighborhood) :
    (nb.containsKind a.activity.targetKind = true →
      suppressTrailPheromone a nb = nb.center.pheros) ∧
    (nb.containsKind a.activity.targetKind = false →
      (findPheroStrength a.activity.targetScent nb.center.pheros = none →
        suppressTrailPheromone a nb = nb.center.pheros) ∧
      ∀ s0, findPheroStrength a.activity.targetScent nb.center.pheros = some s0 →
        (ringMaxStrength a.activity.targetScent nb.ring < s0 →
          findPheroStrength a.activity.targetScent (suppressTrailPheromone a nb) = some 0) ∧
        (s0 ≤ ringMaxStrength a.activity.targetScent nb.ring →
          suppressTrailPheromone a nb = nb.center.pheros)) := by
  constructor
  · intro h
    simp [suppressTrailPheromone, h]
  · intro h
    constructor
    · intro hf
      simp [suppressTrailPheromone, h, hf]
    · intro s0 hf
      constructor
      · intro hlt
        simp only [suppressTrailPheromone, h, Bool.false_eq_true, if_false, hf]
        rw [if_pos hlt, findPheroStrength_clearFirst, hf]
        rfl
      · intro hle
        have hnlt : ¬ (ringMaxStrength a.activity.targetScent nb.ring < s0) := by omega
        simp only [suppressTrailPheromone, h, Bool.false_eq_true, if_false, hf]
        rw [if_neg hnlt]

theorem trail_suppression_c7_witness :
    Neighborhood.containsKind
        ⟨⟨[(Scent.Food, 9)], false, false⟩, [⟨[(Scent.Food, 4)], false, false⟩]⟩
        (Ant.activity ⟨((0 : Int), (0 : Int)), Activity.Foraging, AntState.Follower, 50,
          LocationAwareness.new 2⟩).targetKind = false ∧
    findPheroStrength
      (Ant.activity ⟨((0 : Int), (0 : Int)), Activity.Foraging, AntState.Follower, 50,
        LocationAwareness.new 2⟩).targetScent
      (suppressTrailPheromone
        ⟨((0 : Int), (0 : Int)), Activity.Foraging, AntState.Follower, 50,
          LocationAwareness.new 2⟩
        ⟨⟨[(Scent.Food, 9)], false, false⟩, [⟨[(Scent.Food, 4)], false, false⟩]⟩) = some 0 :=
  ⟨by decide,
   (((trail_suppression_c7
        ⟨((0 : Int), (0 : Int)), Activity.Foraging, AntState.Follower, 50,
          LocationAwareness.new 2⟩
        ⟨⟨[(Scent.Food, 9)], false, false⟩, [⟨[(Scent.Food, 4)], false, false⟩]⟩).2
      (by decide)).2 9 (by decide)).1 (by decide)⟩

end Formicarium

namespace Formicarium

lemma countScent_cons (s : Scent) (m : Marker) (rest : List Marker) :
    countScent s (m :: rest) = countScent s rest + (if m.1 = s then 1 else 0) := by
  simp [countScent, List.countP_cons]

lemma countScent_append (s : Scent) (xs ys : List Marker) :
    countScent s (xs ++ ys) = countScent s xs + countScent s ys := by
  simp [countScent, List.countP_append]

lemma countScent_lengthenFirst (s' s : Scent) (inc : Nat) (ms : List Marker) :
    countScent s' (lengthenFirst s inc ms) = countScent s' ms := by
  induction ms with
  | nil => rfl
  | cons m rest ih =>
      simp only [lengthenFirst]
      by_cases h : m.1 = s
      · rw [if_pos h, countScent_cons, countScent_cons]
      · rw [if_neg h, countScent_cons, countScent_cons, ih]

lemma findPheroStrength_none_iff (s : Scent) (ms : List Marker) :
    findPheroStrength s ms = none ↔ countScent s ms = 0 := by
  induction ms with
  | nil => simp [findPheroStrength, countScent]
  | cons m rest ih =>
      rw [countScent_cons]
      by_cases h : m.1 = s <;> simp [findPheroStrength, h, ih]

lemma countScent_agePheros_le (s : Scent) (ms : List Marker) :
    countScent s (agePheros ms) ≤ countScent s ms := by
  induction ms with
  | nil => simp [agePheros, countScent]
  | cons m rest ih =>
      by_cases h : m.2 - 1 = 0
      · have hage : agePheros (m :: rest) = agePheros rest := by simp [agePheros, h]
        rw [hage, countScent_cons]
        by_cases hm : m.1 = s <;> simp [hm] <;> omega
      · have hage : agePheros (m :: rest) = (m.1, m.2 - 1) :: agePheros rest := by
          simp [agePheros, h]
        rw [hage, countScent_cons, countScent_cons]
        by_cases hm : m.1 = s <;> simp [hm] <;> omega

lemma enhance_countScent (c : Conf) (a : Ant) (pheros : List Marker)
    (others : List AntState) (s' : Scent) :
    countScent s' (enhanceTrailPheromone c a pheros others).pheros
      = countScent s' pheros := by
  unfold enhanceTrailPheromone
  cases hf : findPheroStrength a.activity.scent pheros with
  | some l => exact countScent_lengthenFirst s' a.activity.scent _ pheros
  | none => split_ifs <;> rfl

lemma enhance_offspring_some (c : Conf) (a : Ant) (pheros : List Marker)
    (others : List AntState) (m : Marker)
    (h : (enhanceTrailPheromone c a pheros others).offspring = some m) :
    m.1 = a.activity.scent ∧ findPheroStrength a.activity.scent pheros = none := by
  unfold enhanceTrailPheromone at h
  cases hf : findPheroStrength a.activity.scent pheros with
  | some l => rw [hf] at h; simp at h
  | none =>
      rw [hf] at h
      refine ⟨?_, rfl⟩
      split_ifs at h <;> simp only [Option.some.injEq] at h <;> rw [← h]

lemma enhance_offspring_none_of_leader (c : Conf) (a : Ant) (pheros : List Marker)
    (others : List AntState)
    (hst : a.state = AntState.Follower) (h : AntState.Leader ∈ others) :
    (enhanceTrailPheromone c a pheros others).offspring = none := by
  unfold enhanceTrailPheromone
  cases hf : findPheroStrength a.activity.scent pheros with
  | some l => rfl
  | none =>
      have hcom : others ≠ [] := by
        intro hnil
        rw [hnil] at h
        simp at h
      by_cases hc : 0 < Concentration.decreaseBy a.pheroConcentration c.pheroDecrease
      · rw [if_pos hc, if_neg (fun hcon => hcon.2 h), if_neg ?hcond]
        case hcond =>
          intro hor
          rcases hor with hl | hnil
          · rw [hst] at hl
            exact AntState.noConfusion hl
          · exact hcom hnil
      · rw [if_neg hc]

lemma enhance_none_eq (c : Conf) (a : Ant) (pheros : List Marker)
    (others : List AntState)
    (hf : findPheroStrength a.activity.scent pheros = none) :
    enhanceTrailPheromone c a pheros others =
      if 0 < Concentration.decreaseBy a.pheroConcentration c.pheroDecrease then
        if others ≠ [] ∧ ¬ AntState.Leader ∈ others then
          ⟨{ a with state := AntState.Leader, pheroConcentration :=
                Concentration.decreaseBy a.pheroConcentration c.pheroDecrease },
            pheros,
            some (a.activity.scent,
              (Concentration.decreaseBy a.pheroConcentration c.pheroDecrease).toNat)⟩
        else if a.state = AntState.Leader ∨ others = [] then
          ⟨{ a with pheroConcentration :=
                Concentration.decreaseBy a.pheroConcentration c.pheroDecrease },
            pheros,
            some (a.activity.scent,
              (Concentration.decreaseBy a.pheroConcentration c.pheroDecrease).toNat)⟩
        else
          ⟨{ a with pheroConcentration :=
                Concentration.decreaseBy a.pheroConcentration c.pheroDecrease },
            pheros, none⟩
      else
        ⟨{ a with pheroConcentration :=
              Concentration.decreaseBy a.pheroConcentration c.pheroDecrease },
          pheros, none⟩ := by
  unfold enhanceTrailPheromone
  rw [hf]

lemma enhance_offspring_some_state (c : Conf) (a : Ant) (pheros : List Marker)
    (others : List AntState) (m : Marker)
    (h : (enhanceTrailPheromone c a pheros others).offspring = some m)
    (hcom : others ≠ []) :
    (enhanceTrailPheromone c a pheros others).ant.state = AntState.Leader := by
  have hf := (enhance_offspring_some c a pheros others m h).2
  rw [enhance_none_eq c a pheros others hf] at h ⊢
  split_ifs at h ⊢ with hc h1 h2
  · rfl
  · rcases h2 with h2 | h2
    · exact h2
    · exact absurd h2 hcom

lemma runTickGo_nil (c : Conf) (processed : List Ant) (pheros deposits : List Marker) :
    runTickGo c [] processed pheros deposits = ⟨processed, pheros, deposits⟩ := rfl

lemma runTickGo_cons (c : Conf) (a : Ant) (rest processed : List Ant)
    (pheros deposits : List Marker) :
    runTickGo c (a :: rest) processed pheros deposits =
      runTickGo c rest
        (processed ++ [(enhanceTrailPheromone c { a with state := AntState.Follower } pheros
            ((processed ++ rest).map Ant.state)).ant])
        (enhanceTrailPheromone c { a with state := AntState.Follower } pheros
          ((processed ++ rest).map Ant.state)).pheros
        (deposits ++ (enhanceTrailPheromone c { a with state := AntState.Follower } pheros
          ((processed ++ rest).map Ant.state)).offspring.toList) := rfl

lemma runTickGo_spec (c : Conf) (pheros0 : List Marker) :
    ∀ (rest processed : List Ant) (pheros deposits : List Marker),
    (∀ s, countScent s pheros = countScent s pheros0) →
    (∀ m ∈ deposits, countScent m.1 pheros0 = 0) →
    deposits.length ≤ 1 →
    (deposits ≠ [] → rest = [] ∨ ∃ b ∈ processed, b.state = AntState.Leader) →
    (∀ s, countScent s (runTickGo c rest processed pheros deposits).pheros
        = countScent s pheros0) ∧
    (∀ m ∈ (runTickGo c rest processed pheros deposits).deposits,
        countScent m.1 pheros0 = 0) ∧
    (runTickGo c rest processed pheros deposits).deposits.length ≤ 1 := by
  intro rest
  induction rest with
  | nil =>
      intro processed pheros deposits h1 h2 h3 h4
      rw [runTickGo_nil]
      exact ⟨h1, h2, h3⟩
  | cons a rest ih =>
      intro processed pheros deposits h1 h2 h3 h4
      rw [runTickGo_cons]
      set a0 : Ant := { a with state := AntState.Follower } with ha0
      set others : List AntState := (processed ++ rest).map Ant.state with hoth
      set out : EnhanceOut := enhanceTrailPheromone c a0 pheros others with hout
      apply ih
      · intro s
        rw [hout, enhance_countScent]
        exact h1 s
      · intro m hm
        rcases List.mem_append.mp hm with hm | hm
        · exact h2 m hm
        · have hsome : out.offspring = some m := by
            cases ho : out.offspring with
            | none => rw [ho] at hm; simp at hm
            | some m' =>
                rw [ho] at hm
                simp at hm
                rw [hm]
          obtain ⟨hm1, hfind⟩ := enhance_offspring_some c a0 pheros others m (hout ▸ hsome)
          have hz := (findPheroStrength_none_iff _ _).mp hfind
          rw [hm1, ← h1 a0.activity.scent]
          exact hz
      · cases ho : out.offspring with
        | none => simp [ho, h3]
        | some m =>
            have hdep : deposits = [] := by
              by_contra hne
              rcases h4 hne with habs | ⟨b, hb, hbl⟩
              · exact List.cons_ne_nil a rest habs
              · have hmem : AntState.Leader ∈ others := by
                  rw [hoth]
                  exact hbl ▸ List.mem_map_of_mem Ant.state (List.mem_append_left rest hb)
                have hnone := enhance_offspring_none_of_leader c a0 pheros others rfl hmem
                rw [← hout] at hnone
                rw [hnone] at ho
                exact Option.noConfusion ho
            simp [hdep, ho]
      · intro hne
        cases ho : out.offspring with
        | none =>
            have hdne : deposits ≠ [] := by
              intro hd
              exact hne (by rw [hd, ho]; rfl)
            rcases h4 hdne with habs | ⟨b, hb, hbl⟩
            · exact absurd habs (List.cons_ne_nil a rest)
            · exact Or.inr ⟨b, List.mem_append_left _ hb, hbl⟩
        | some m =>
            by_cases hcom : others = []
            · left
              have hpr : processed ++ rest = [] := by
                rw [hoth] at hcom
                exact List.map_eq_nil_iff.mp hcom
              exact (List.append_eq_nil.mp hpr).2
            · right
              have hstate := enhance_offspring_some_state c a0 pheros others m
                (hout ▸ ho) hcom
              exact ⟨out.ant, List.mem_append_right _ (by simp), hout ▸ hstate⟩

end Formicarium

namespace Formicarium

lemma enhance_two_forage_first (c : Conf) (loc : Location) (cc : Int)
    (mm : LocationAwareness) (pheros : List Marker) (others : List AntState)
    (hfind : findPheroStrength Scent.Colony pheros = none)
    (hc : 0 < Concentration.decreaseBy cc c.pheroDecrease)
    (hne : others ≠ []) (hnl : ¬ AntState.Leader ∈ others) :
    enhanceTrailPheromone c ⟨loc, Activity.Foraging, AntState.Follower, cc, mm⟩ pheros others
      = ⟨⟨loc, Activity.Foraging, AntState.Leader,
            Concentration.decreaseBy cc c.pheroDecrease, mm⟩, pheros,
          some (Scent.Colony, (Concentration.decreaseBy cc c.pheroDecrease).toNat)⟩ := by
  rw [enhance_none_eq c ⟨loc, Activity.Foraging, AntState.Follower, cc, mm⟩ pheros others hfind]
  dsimp only
  rw [if_pos hc, if_pos ⟨hne, hnl⟩]
  rfl

lemma enhance_under_leader (c : Conf) (a : Ant) (pheros : List Marker)
    (others : List AntState)
    (hst : a.state = AntState.Follower) (h : AntState.Leader ∈ others)
    (hf : findPheroStrength a.activity.scent pheros = none) :
    enhanceTrailPheromone c a pheros others =
      ⟨{ a with pheroConcentration :=
            Concentration.decreaseBy a.pheroConcentration c.pheroDecrease },
        pheros, none⟩ := by
  rw [enhance_none_eq _ _ _ _ hf]
  have hcom : others ≠ [] := by
    intro hnil
    rw [hnil] at h
    simp at h
  have hno : ¬ (a.state = AntState.Leader ∨ others = []) := by
    rintro (hl | hnil)
    · rw [hst] at hl
      exact AntState.noConfusion hl
    · exact hcom hnil
  by_cases hc : 0 < Concentration.decreaseBy a.pheroConcentration c.pheroDecrease
  · rw [if_pos hc, if_neg (fun hcon => hcon.2 h), if_neg hno]
  · rw [if_neg hc]

/-- Claim C1: for every committed tick, every tile and every scent, at most one
trail marker of that scent exists on the tile; and in the two-agent example
(both Foraging on one tile, no colony-bound marker, nobody already Leader)
exactly one of the two deposits a marker that tick — the first agent processed
claims leadership and the existing Leader suppresses the later writer. -/
theorem marker_uniqueness_c1 :
    (∀ (c : Conf) (ants : List Ant) (pheros : List Marker),
      UniquePerScent pheros →
      UniquePerScent (committedMarkers (runTick c ants pheros))) ∧
    (∀ (c : Conf) (loc1 loc2 : Location) (c1 c2 : Int) (m1 m2 : LocationAwareness)
      (pheros : List Marker),
      findPheroStrength Scent.Colony pheros = none →
      0 < Concentration.decreaseBy c1 c.pheroDecrease →
      0 < Concentration.decreaseBy c2 c.pheroDecrease →
      (runTick c [⟨loc1, Activity.Foraging, AntState.Follower, c1, m1⟩,
        ⟨loc2, Activity.Foraging, AntState.Follower, c2, m2⟩] pheros).deposits
        = [(Scent.Colony, (Concentration.decreaseBy c1 c.pheroDecrease).toNat)] ∧
      ((runTick c [⟨loc1, Activity.Foraging, AntState.Follower, c1, m1⟩,
        ⟨loc2, Activity.Foraging, AntState.Follower, c2, m2⟩] pheros).ants.map Ant.state
        = [AntState.Leader, AntState.Follower])) := by
  constructor
  · intro c ants pheros hu
    obtain ⟨hp, hd, hl⟩ := runTickGo_spec c pheros ants [] pheros []
      (fun s => rfl) (by simp) (by simp) (by simp)
    intro s
    have h5 : countScent s (agePheros (runTickGo c ants [] pheros []).pheros)
        ≤ countScent s pheros := by
      calc countScent s (agePheros (runTickGo c ants [] pheros []).pheros)
          ≤ countScent s (runTickGo c ants [] pheros []).pheros :=
            countScent_agePheros_le s _
        _ = countScent s pheros := hp s
    have hcases : (runTickGo c ants [] pheros []).deposits = [] ∨
        ∃ m, (runTickGo c ants [] pheros []).deposits = [m] := by
      cases hd' : (runTickGo c ants [] pheros []).deposits with
      | nil => exact Or.inl rfl
      | cons m tl =>
          right
          refine ⟨m, ?_⟩
          rw [hd'] at hl
          simp only [List.length_cons] at hl
          have : tl = [] := List.length_eq_zero.mp (by omega)
          rw [this]
    have hsplit : countScent s (committedMarkers (runTick c ants pheros))
        = countScent s (agePheros (runTickGo c ants [] pheros []).pheros)
          + countScent s (runTickGo c ants [] pheros []).deposits := by
      rw [show committedMarkers (runTick c ants pheros)
          = agePheros (runTickGo c ants [] pheros []).pheros
            ++ (runTickGo c ants [] pheros []).deposits from rfl]
      exact countScent_append s _ _
    rw [hsplit]
    rcases hcases with hnil | ⟨m, hm⟩
    · rw [hnil]
      have h6 := hu s
      have h7 : countScent s ([] : List Marker) = 0 := rfl
      omega
    · rw [hm]
      by_cases hms : m.1 = s
      · have hz : countScent s pheros = 0 := by
          rw [← hms]
          exact hd m (by rw [hm]; simp)
        have h8 : countScent s [m] = 1 := by
          rw [countScent_cons]
          simp [hms, countScent]
        omega
      · have h8 : countScent s [m] = 0 := by
          rw [countScent_cons]
          simp [hms, countScent]
        have h6 := hu s
        omega
  · intro c loc1 loc2 c1 c2 m1 m2 pheros hfind h1 h2
    have e1 := enhance_two_forage_first c loc1 c1 m1 pheros
      [AntState.Follower] hfind h1 (by simp) (by simp)
    have e2 := enhance_under_leader c
      ⟨loc2, Activity.Foraging, AntState.Follower, c2, m2⟩ pheros
      [AntState.Leader] rfl (by simp) hfind
    rw [show (runTick c [⟨loc1, Activity.Foraging, AntState.Follower, c1, m1⟩,
        ⟨loc2, Activity.Foraging, AntState.Follower, c2, m2⟩] pheros)
      = runTickGo c [⟨loc1, Activity.Foraging, AntState.Follower, c1, m1⟩,
        ⟨loc2, Activity.Foraging, AntState.Follower, c2, m2⟩] [] pheros [] from rfl]
    rw [runTickGo_cons]
    simp only [List.nil_append, List.map_cons, List.map_nil]
    rw [e1]
    rw [runTickGo_cons]
    simp only [List.nil_append, List.append_nil, List.map_cons, List.map_nil]
    rw [e2]
    exact ⟨rfl, rfl⟩

theorem marker_uniqueness_c1_witness :
    UniquePerScent (committedMarkers (runTick ⟨3, 200, 2, 0, 30, 20⟩ [] [])) ∧
    ((runTick ⟨3, 200, 2, 0, 30, 20⟩
        [⟨((0 : Int), (0 : Int)), Activity.Foraging, AntState.Follower, 50,
            LocationAwareness.new 2⟩,
          ⟨((0 : Int), (0 : Int)), Activity.Foraging, AntState.Follower, 60,
            LocationAwareness.new 2⟩] []).deposits
      = [(Scent.Colony, (Concentration.decreaseBy 50 2).toNat)] ∧
    ((runTick ⟨3, 200, 2, 0, 30, 20⟩
        [⟨((0 : Int), (0 : Int)), Activity.Foraging, AntState.Follower, 50,
            LocationAwareness.new 2⟩,
          ⟨((0 : Int), (0 : Int)), Activity.Foraging, AntState.Follower, 60,
            LocationAwareness.new 2⟩] []).ants.map Ant.state
      = [AntState.Leader, AntState.Follower])) :=
  ⟨marker_uniqueness_c1.1 ⟨3, 200, 2, 0, 30, 20⟩ [] [] (fun _ => Nat.zero_le 1),
   marker_uniqueness_c1.2 ⟨3, 200, 2, 0, 30, 20⟩ ((0 : Int), (0 : Int)) ((0 : Int), (0 : Int))
     50 60 (LocationAwareness.new 2) (LocationAwareness.new 2) [] rfl
     (by decide) (by decide)⟩

/-- Claim C10: leader resolution is per tile, not per scent: with one Foraging
and one Carrying agent on a tile holding neither a colony-bound nor a
food-bound marker, the agent processed first claims leadership and deposits
its own (colony-bound) scent, and the second deposits nothing that tick even
though no marker of its food-bound scent exists and its concentration budget
is positive. -/
theorem leadership_per_tile_c10 (c : Conf) (loc1 loc2 : Location) (c1 c2 : Int)
    (m1 m2 : LocationAwareness) (pheros : List Marker)
    (hcolony : findPheroStrength Scent.Colony pheros = none)
    (hfood : findPheroStrength Scent.Food pheros = none)
    (h1 : 0 < Concentration.decreaseBy c1 c.pheroDecrease)
    (h2 : 0 < Concentration.decreaseBy c2 c.pheroDecrease) :
    (runTick c [⟨loc1, Activity.Foraging, AntState.Follower, c1, m1⟩,
      ⟨loc2, Activity.Carrying, AntState.Follower, c2, m2⟩] pheros).deposits
      = [(Scent.Colony, (Concentration.decreaseBy c1 c.pheroDecrease).toNat)] ∧
    ((runTick c [⟨loc1, Activity.Foraging, AntState.Follower, c1, m1⟩,
      ⟨loc2, Activity.Carrying, AntState.Follower, c2, m2⟩] pheros).ants.map Ant.state
      = [AntState.Leader, AntState.Follower]) := by
  have e1 := enhance_two_forage_first c loc1 c1 m1 pheros
    [AntState.Follower] hcolony h1 (by simp) (by simp)
  have e2 := enhance_under_leader c
    ⟨loc2, Activity.Carrying, AntState.Follower, c2, m2⟩ pheros
    [AntState.Leader] rfl (by simp) hfood
  rw [show (runTick c [⟨loc1, Activity.Foraging, AntState.Follower, c1, m1⟩,
      ⟨loc2, Activity.Carrying, AntState.Follower, c2, m2⟩] pheros)
    = runTickGo c [⟨loc1, Activity.Foraging, AntState.Follower, c1, m1⟩,
      ⟨loc2, Activity.Carrying, AntState.Follower, c2, m2⟩] [] pheros [] from rfl]
  rw [runTickGo_cons]
  simp only [List.nil_append, List.map_cons, List.map_nil]
  rw [e1]
  rw [runTickGo_cons]
  simp only [List.nil_append, List.append_nil, List.map_cons, List.map_nil]
  rw [e2]
  exact ⟨rfl, rfl⟩

theorem leadership_per_tile_c10_witness :
    (runTick ⟨3, 200, 2, 0, 30, 20⟩
        [⟨((0 : Int), (0 : Int)), Activity.Foraging, AntState.Follower, 50,
            LocationAwareness.new 2⟩,
          ⟨((0 : Int), (0 : Int)), Activity.Carrying, AntState.Follower, 60,
            LocationAwareness.new 2⟩] []).deposits
      = [(Scent.Colony, (Concentration.decreaseBy 50 2).toNat)] ∧
    ((runTick ⟨3, 200, 2, 0, 30, 20⟩
        [⟨((0 : Int), (0 : Int)), Activity.Foraging, AntState.Follower, 50,
            LocationAwareness.new 2⟩,
          ⟨((0 : Int), (0 : Int)), Activity.Carrying, AntState.Follower, 60,
            LocationAwareness.new 2⟩] []).ants.map Ant.state
      = [AntState.Leader, AntState.Follower]) :=
  leadership_per_tile_c10 ⟨3, 200, 2, 0, 30, 20⟩ ((0 : Int), (0 : Int)) ((0 : Int), (0 : Int))
    50 60 (LocationAwareness.new 2) (LocationAwareness.new 2) [] rfl rfl
    (by decide) (by decide)

end Formicarium

namespace Formicarium

lemma supplySum_setFirstMorsel (loc : Location) (v : Nat) :
    ∀ (ms : List (Location × Nat)) (n : Nat), morselAt loc ms = some n →
    supplySum (setFirstMorsel loc v ms) + n = supplySum ms + v := by
  intro ms
  induction ms with
  | nil => intro n h; simp [morselAt] at h
  | cons m rest ih =>
      intro n h
      by_cases hm : m.1 = loc
      · rw [morselAt] at h
        rw [if_pos hm] at h
        simp only [Option.some.injEq] at h
        rw [setFirstMorsel, if_pos hm]
        simp [supplySum, h]
        omega
      · rw [morselAt] at h
        rw [if_neg hm] at h
        rw [setFirstMorsel, if_neg hm]
        have := ih n h
        simp only [supplySum, List.map_cons, List.sum_cons] at *
        omega

lemma carryCount_cons (a : Ant) (l : List Ant) :
    carryCount (a :: l) = (if a.activity = Activity.Carrying then 1 else 0) + carryCount l := by
  simp [carryCount, List.countP_cons]
  by_cases h : a.activity = Activity.Carrying <;> simp [h] <;> omega

lemma assess_conserve (c : Conf) (hasNest : Bool) (morsel0 : Option Nat)
    (storage : Nat) (a : Ant) (hs : storage ≤ u64Max) :
    ((assessLocationForTargets c hasNest morsel0 storage a).storage
        + (if (assessLocationForTargets c hasNest morsel0 storage a).ant.activity
            = Activity.Carrying then 1 else 0)
        + (assessLocationForTargets c hasNest morsel0 storage a).morsel.getD 0
      ≤ storage + (if a.activity = Activity.Carrying then 1 else 0) + morsel0.getD 0) ∧
    storage ≤ (assessLocationForTargets c hasNest morsel0 storage a).storage ∧
    ((assessLocationForTargets c hasNest morsel0 storage a).morsel = none ↔ morsel0 = none) ∧
    (assessLocationForTargets c hasNest morsel0 storage a).storage ≤ u64Max := by
  have hn1 : storage ≤ nestStore storage := Nat.le_min.mpr ⟨Nat.le_succ storage, hs⟩
  have hn2 : nestStore storage ≤ storage + 1 := Nat.min_le_left _ _
  have hn3 : nestStore storage ≤ u64Max := Nat.min_le_right _ _
  obtain ⟨loc, act, st, conc, mem⟩ := a
  cases act <;> cases hasNest <;> rcases morsel0 with _ | s <;>
    first
      | (simp [assessLocationForTargets, assessNest, assessMorsel, Activity.targetKind,
          Activity.switch] <;> omega)
      | (rcases Nat.eq_zero_or_pos s with h0 | h0 <;>
          simp [assessLocationForTargets, assessNest, assessMorsel, Activity.targetKind,
            Activity.switch, h0] <;> omega)

lemma antReactW_eq (c : Conf) (nestLoc : Location) (storage : Nat)
    (ms : List (Location × Nat)) (a : Ant) (mv : Location) :
    antReactW c nestLoc storage ms a mv =
      ((assessLocationForTargets c (decide (a.location = nestLoc)) (morselAt a.location ms)
          storage { a with state := AntState.Follower,
                           memory := a.memory.insert a.location }).storage,
        (match (assessLocationForTargets c (decide (a.location = nestLoc))
            (morselAt a.location ms) storage
            { a with state := AntState.Follower,
                     memory := a.memory.insert a.location }).morsel with
          | some v => setFirstMorsel a.location v ms
          | none => ms),
        { (assessLocationForTargets c (decide (a.location = nestLoc)) (morselAt a.location ms)
            storage { a with state := AntState.Follower,
                             memory := a.memory.insert a.location }).ant with
            pheroConcentration := Concentration.decreaseBy
              (assessLocationForTargets c (decide (a.location = nestLoc))
                (morselAt a.location ms) storage
                { a with state := AntState.Follower,
                         memory := a.memory.insert a.location }).ant.pheroConcentration
              c.pheroDecrease,
            location := mv }) := rfl

lemma antReactW_conserve (c : Conf) (nestLoc : Location) (storage : Nat)
    (ms : List (Location × Nat)) (a : Ant) (mv : Location) (hs : storage ≤ u64Max) :
    ((antReactW c nestLoc storage ms a mv).1
        + (if (antReactW c nestLoc storage ms a mv).2.2.activity
            = Activity.Carrying then 1 else 0)
        + supplySum (antReactW c nestLoc storage ms a mv).2.1
      ≤ storage + (if a.activity = Activity.Carrying then 1 else 0) + supplySum ms) ∧
    storage ≤ (antReactW c nestLoc storage ms a mv).1 ∧
    (antReactW c nestLoc storage ms a mv).1 ≤ u64Max := by
  rw [antReactW_eq]
  obtain ⟨hA, hB, hC, hD⟩ := assess_conserve c (decide (a.location = nestLoc))
    (morselAt a.location ms) storage
    { a with state := AntState.Follower, memory := a.memory.insert a.location } hs
  have hact :
      ({ a with state := AntState.Follower,
                memory := a.memory.insert a.location } : Ant).activity = a.activity := rfl
  rw [hact] at hA
  cases hm : (assessLocationForTargets c (decide (a.location = nestLoc))
      (morselAt a.location ms) storage
      { a with state := AntState.Follower,
               memory := a.memory.insert a.location }).morsel with
  | none =>
      have hm0 : morselAt a.location ms = none := hC.mp hm
      have hg : (morselAt a.location ms).getD 0 = 0 := by rw [hm0]; rfl
      rw [hm] at hA
      rw [hg] at hA
      simp only [hm]
      refine ⟨?_, hB, hD⟩
      simp only [Option.getD_none] at hA
      omega
  | some v =>
      have hm0 : ∃ n, morselAt a.location ms = some n := by
        cases hmm : morselAt a.location ms with
        | none => rw [hm] at hC; rw [hmm] at hC; simp at hC
        | some n => exact ⟨n, rfl⟩
      obtain ⟨n, hn⟩ := hm0
      have hW := supplySum_setFirstMorsel a.location v ms n hn
      have hg : (morselAt a.location ms).getD 0 = n := by rw [hn]; rfl
      rw [hm] at hA
      rw [hg] at hA
      simp only [Option.getD_some] at hA
      simp only [hm]
      refine ⟨?_, hB, hD⟩
      omega

lemma tickGo_cons_eq (c : Conf) (nestLoc : Location) (a : Ant) (as : List Ant)
    (mvs : List Location) (storage : Nat) (ms : List (Location × Nat)) :
    tickGo c nestLoc (a :: as) mvs storage ms =
      ((tickGo c nestLoc as mvs.tail
          (antReactW c nestLoc storage ms a (mvs.headD a.location)).1
          (antReactW c nestLoc storage ms a (mvs.headD a.location)).2.1).1,
        (tickGo c nestLoc as mvs.tail
          (antReactW c nestLoc storage ms a (mvs.headD a.location)).1
          (antReactW c nestLoc storage ms a (mvs.headD a.location)).2.1).2.1,
        (antReactW c nestLoc storage ms a (mvs.headD a.location)).2.2 ::
          (tickGo c nestLoc as mvs.tail
            (antReactW c nestLoc storage ms a (mvs.headD a.location)).1
            (antReactW c nestLoc storage ms a (mvs.headD a.location)).2.1).2.2) := rfl

lemma tickGo_conserve (c : Conf) (nestLoc : Location) :
    ∀ (ants : List Ant) (mvs : List Location) (storage : Nat)
      (ms : List (Location × Nat)), storage ≤ u64Max →
    ((tickGo c nestLoc ants mvs storage ms).1
        + carryCount (tickGo c nestLoc ants mvs storage ms).2.2
        + supplySum (tickGo c nestLoc ants mvs storage ms).2.1
      ≤ storage + carryCount ants + supplySum ms) ∧
    storage ≤ (tickGo c nestLoc ants mvs storage ms).1 ∧
    (tickGo c nestLoc ants mvs storage ms).1 ≤ u64Max := by
  intro ants
  induction ants with
  | nil =>
      intro mvs storage ms hs
      exact ⟨le_refl _, le_refl _, hs⟩
  | cons a as ih =>
      intro mvs storage ms hs
      obtain ⟨hA, hB, hC⟩ := antReactW_conserve c nestLoc storage ms a
        (mvs.headD a.location) hs
      obtain ⟨ihA, ihB, ihC⟩ := ih mvs.tail
        (antReactW c nestLoc storage ms a (mvs.headD a.location)).1
        (antReactW c nestLoc storage ms a (mvs.headD a.location)).2.1 hC
      rw [tickGo_cons_eq]
      dsimp only
      refine ⟨?_, le_trans hB ihB, ihC⟩
      rw [carryCount_cons, carryCount_cons]
      omega

lemma tickW_conserve (c : Conf) (w : World) (mvs : List Location)
    (h : w.storage ≤ u64Max) :
    ((tickW c w mvs).storage + carryCount (tickW c w mvs).ants
        + supplySum (tickW c w mvs).morsels
      ≤ w.storage + carryCount w.ants + supplySum w.morsels) ∧
    w.storage ≤ (tickW c w mvs).storage ∧ (tickW c w mvs).storage ≤ u64Max := by
  obtain ⟨hA, hB, hC⟩ := tickGo_conserve c w.nestLocation w.ants mvs w.storage w.morsels h
  exact ⟨hA, hB, hC⟩

lemma runW_cons (c : Conf) (w : World) (mvs : List Location)
    (plan : List (List Location)) :
    runW c w (mvs :: plan) = runW c (tickW c w mvs) plan := rfl

lemma runW_bound (c : Conf) :
    ∀ (plan : List (List Location)) (w : World), w.storage ≤ u64Max →
    (runW c w plan).storage + carryCount (runW c w plan).ants
        + supplySum (runW c w plan).morsels
      ≤ w.storage + carryCount w.ants + supplySum w.morsels := by
  intro plan
  induction plan with
  | nil => intro w h; exact le_refl _
  | cons mvs plan ih =>
      intro w h
      obtain ⟨h1, h2, h3⟩ := tickW_conserve c w mvs h
      have h4 := ih (tickW c w mvs) h3
      rw [runW_cons]
      omega

/-- Claim C4: nest storage is non-decreasing from tick to tick over every run
(for any movement policy), and in every reachable state it never exceeds the
sum of the food sources' initial supplies: every delivery is preceded by a
distinct successful pickup, captured by the conserved bound
storage + carrying-ants + remaining-supplies at most the initial total. -/
theorem conservation_c4 :
    (∀ (c : Conf) (w : World) (mvs : List Location),
      w.storage ≤ u64Max → w.storage ≤ (tickW c w mvs).storage) ∧
    (∀ (c : Conf) (w : World) (plan : List (List Location)),
      w.storage = 0 →
      (∀ a ∈ w.ants, a.activity = Activity.Foraging) →
      (runW c w plan).storage ≤ supplySum w.morsels) := by
  constructor
  · intro c w mvs h
    exact (tickW_conserve c w mvs h).2.1
  · intro c w plan h0 hf
    have hcc : carryCount w.ants = 0 := by
      rw [carryCount, List.countP_eq_zero]
      intro a ha
      rw [hf a ha]
      simp
    have hb := runW_bound c plan w (by rw [h0]; exact Nat.zero_le _)
    omega

theorem conservation_c4_witness :
    ((⟨((5 : Int), (5 : Int)), 0, [(((1 : Int), (1 : Int)), 2)],
        [⟨((1 : Int), (1 : Int)), Activity.Foraging, AntState.Follower, 50,
          LocationAwareness.new 2⟩]⟩ : World).storage
      ≤ (tickW ⟨3, 200, 2, 0, 30, 20⟩
          ⟨((5 : Int), (5 : Int)), 0, [(((1 : Int), (1 : Int)), 2)],
            [⟨((1 : Int), (1 : Int)), Activity.Foraging, AntState.Follower, 50,
              LocationAwareness.new 2⟩]⟩ [((5 : Int), (5 : Int))]).storage) ∧
    (runW ⟨3, 200, 2, 0, 30, 20⟩
        ⟨((5 : Int), (5 : Int)), 0, [(((1 : Int), (1 : Int)), 2)],
          [⟨((1 : Int), (1 : Int)), Activity.Foraging, AntState.Follower, 50,
            LocationAwareness.new 2⟩]⟩
        [[((5 : Int), (5 : Int))], [((1 : Int), (1 : Int))]]).storage
      ≤ supplySum [(((1 : Int), (1 : Int)), 2)] :=
  ⟨conservation_c4.1 ⟨3, 200, 2, 0, 30, 20⟩
      ⟨((5 : Int), (5 : Int)), 0, [(((1 : Int), (1 : Int)), 2)],
        [⟨((1 : Int), (1 : Int)), Activity.Foraging, AntState.Follower, 50,
          LocationAwareness.new 2⟩]⟩ [((5 : Int), (5 : Int))] (by decide),
   conservation_c4.2 ⟨3, 200, 2, 0, 30, 20⟩
      ⟨((5 : Int), (5 : Int)), 0, [(((1 : Int), (1 : Int)), 2)],
        [⟨((1 : Int), (1 : Int)), Activity.Foraging, AntState.Follower, 50,
          LocationAwareness.new 2⟩]⟩
      [[((5 : Int), (5 : Int))], [((1 : Int), (1 : Int))]] rfl (by decide)⟩

end Formicarium
